import Mathlib

/-!
Shallow embedding of the streak and completion-rate engine of the
habit-tracker repository (the analytics module: `calculateStreak`,
`calculateIntervalStreak`, `calculateCompletionRate`).

Civil dates are modelled as epoch-day numbers of type `Int`; lexicographic
order on ISO `YYYY-MM-DD` strings coincides with numeric order on day
numbers, and the millisecond differences the source divides by 86400000 are
exact multiples of one day for midnight-aligned dates.  Creation and "now"
timestamps used by the completion-rate function are modelled as millisecond
values of type `Int`, as in the source, where they are not midnight-aligned.
-/

namespace HabitTracker

/-- Milliseconds in one civil day, the literal 86400000 of the source. -/
def msPerDay : Int := 86400000

/-- Result record of the streak functions: current and longest streak. -/
structure StreakResult where
  current : Nat
  longest : Nat
deriving Repr, DecidableEq

/-- The habit frequency enumeration, the string values of the source. -/
inductive Frequency
  | DAILY
  | WEEKLY
  | CUSTOM
  | INTERVAL
deriving Repr, DecidableEq

/-- The sorted, newest-first date list of the source:
completions mapped to civil dates, sorted ascending, then reversed. -/
def sortedDatesDesc (completions : List Int) : List Int :=
  (List.insertionSort (· ≤ ·) completions).reverse

/-- Spreading a JS Set built from a list keeps the first occurrence of each
element, in encounter order; `seen` is the set accumulated so far. -/
def dedupKeepFirst (seen : List Int) : List Int → List Int
  | [] => []
  | x :: xs =>
    if x ∈ seen then dedupKeepFirst seen xs
    else x :: dedupKeepFirst (x :: seen) xs

/-- The `uniqueDates` array of the source: the Set-spread of the
descending sorted date list. -/
def uniqueDates (completions : List Int) : List Int :=
  dedupKeepFirst [] (sortedDatesDesc completions)

/-- The pair loop of `calculateIntervalStreak`: walks consecutive pairs of
the unique-date list (newest first), extending `tempStreak` while the gap is
at most `intervalDays` and otherwise folding it into `longestStreak` and
resetting to 1.  Returns the final `(tempStreak, longestStreak)`. -/
def intervalLoop (intervalDays : Int) : Int → List Int → Nat → Nat → Nat × Nat
  | _, [], tempStreak, longestStreak => (tempStreak, longestStreak)
  | prev, d :: ds, tempStreak, longestStreak =>
    if prev - d ≤ intervalDays then
      intervalLoop intervalDays d ds (tempStreak + 1) longestStreak
    else
      intervalLoop intervalDays d ds 1 (max longestStreak tempStreak)

/-- `calculateIntervalStreak` of the source. The empty case is unreachable
from `calculateStreak`; it mirrors the source, where a NaN date makes the
activity comparison false and the pair loop body never runs. -/
def calculateIntervalStreak (uniq : List Int) (intervalDays : Int)
    (today : Int) : StreakResult :=
  match uniq with
  | [] => ⟨0, 1⟩
  | d0 :: rest =>
    let daysSinceLastCompletion := today - d0
    let streakActive := daysSinceLastCompletion ≤ intervalDays
    let p := intervalLoop intervalDays d0 rest 1 0
    let longestStreak := max p.2 p.1
    ⟨if streakActive then p.1 else 0, longestStreak⟩

/-- The first pass of the dated `calculateStreak` loop, after its `i = 0`
iteration has set `tempStreak = 1`: walks consecutive pairs, extending the
run while the day difference is exactly 1, otherwise folding `tempStreak`
into `longestStreak` and resetting to 1. -/
def segLoop : Int → List Int → Nat → Nat → Nat × Nat
  | _, [], tempStreak, longestStreak => (tempStreak, longestStreak)
  | prev, d :: ds, tempStreak, longestStreak =>
    if prev - d = 1 then segLoop d ds (tempStreak + 1) longestStreak
    else segLoop d ds 1 (max longestStreak tempStreak)

/-- The backward recalculation loop of the dated `calculateStreak`: scans the
unique dates, incrementing the count and stepping `checkDate` one day back on
a match, breaking at the first date below `checkDate`, skipping others. -/
def walkLoop : List Int → Int → Nat → Nat
  | [], _, acc => acc
  | d :: ds, checkDate, acc =>
    if d = checkDate then walkLoop ds (checkDate - 1) (acc + 1)
    else if d < checkDate then acc
    else walkLoop ds checkDate acc

/-- The dated (non-interval) body of `calculateStreak`, on the unique-date
list: longest from the pair scan, current recomputed by the backward walk
when the newest date is today or yesterday, else 0. -/
def calcDatedStreak (uniq : List Int) (today : Int) : StreakResult :=
  match uniq with
  | [] => ⟨0, 0⟩
  | d0 :: rest =>
    let yesterday := today - 1
    let streakActive := d0 = today ∨ d0 = yesterday
    let p := segLoop d0 rest 1 0
    let longestStreak := max p.2 p.1
    let current :=
      if streakActive then
        walkLoop (d0 :: rest) (if d0 = today then today else yesterday) 0
      else 0
    ⟨current, longestStreak⟩

/-- `calculateStreak` of the source: empty input gives zeros; an INTERVAL
frequency with a truthy (non-null, nonzero) `intervalDays` dispatches to the
interval variant; every other case runs the dated logic. -/
def calculateStreak (completions : List Int) (frequency : Frequency)
    (customDays : List Int) (intervalDays : Option Int)
    (today : Int) : StreakResult :=
  if completions = [] then ⟨0, 0⟩
  else
    let uniq := uniqueDates completions
    match frequency, intervalDays with
    | Frequency.INTERVAL, some n =>
      if n = 0 then calcDatedStreak uniq today
      else calculateIntervalStreak uniq n today
    | _, _ => calcDatedStreak uniq today

/-- Math.round of `100 * num / den` as exact rational half-up rounding:
floor of `(100 num / den) + 1/2`, valid for any nonzero `den`. -/
def roundPct (num den : Int) : Int := (200 * num + den).fdiv (2 * den)

/-- Day of week of a millisecond timestamp, as JS getDay in UTC:
epoch day 0 (1970-01-01) was a Thursday, index 4. -/
def jsGetDay (t : Int) : Int := (t.fdiv msPerDay + 4) % 7

/-- The CUSTOM branch loop of `calculateCompletionRate`: counts the indices
`i` below `daysSinceCreation` whose date, `start` shifted by `i` days, falls
on a weekday listed in `customDays`. -/
def customExpected (start : Int) (customDays : List Int) : Nat → Nat
  | 0 => 0
  | n + 1 =>
    customExpected start customDays n +
      (if jsGetDay (start + (n : Int) * msPerDay) ∈ customDays then 1 else 0)

/-- `daysSinceCreation` of the source: floor of the millisecond difference
divided by one day, plus 1. -/
def daysSinceCreation (now createdAt : Int) : Int :=
  (now - createdAt).fdiv msPerDay + 1

/-- The expected-completions count of `calculateCompletionRate`, by
frequency, given `d = daysSinceCreation` (the branch runs with `d` at least
1).  WEEKLY uses ceiling division of `d` by 7 times `targetPerWeek || 1`;
CUSTOM counts matching weekdays when the day set is non-empty; INTERVAL with
truthy `intervalDays` is one occurrence plus one per full interval. -/
def expectedCompletions (frequency : Frequency) (customDays : List Int)
    (targetPerWeek : Option Int) (intervalDays : Option Int)
    (createdAt : Int) (d : Int) : Int :=
  match frequency with
  | Frequency.DAILY => d
  | Frequency.WEEKLY =>
    (d + 6).fdiv 7 *
      (match targetPerWeek with
       | some t => if t = 0 then 1 else t
       | none => 1)
  | Frequency.CUSTOM =>
    if customDays = [] then 0
    else (customExpected createdAt customDays d.toNat : Int)
  | Frequency.INTERVAL =>
    match intervalDays with
    | some n => if n = 0 then 0 else d.fdiv n + 1
    | none => 0

/-- `calculateCompletionRate` of the source: zero when the habit is created
in the future or no occurrence was expected, otherwise the rounded
percentage of completions over expected occurrences, capped at 100. -/
def calculateCompletionRate (completions : List Int) (createdAt : Int)
    (frequency : Frequency) (customDays : List Int)
    (targetPerWeek : Option Int) (intervalDays : Option Int)
    (now : Int) : Int :=
  let d := daysSinceCreation now createdAt
  if d ≤ 0 then 0
  else
    let expected :=
      expectedCompletions frequency customDays targetPerWeek intervalDays
        createdAt d
    if expected = 0 then 0
    else min 100 (roundPct completions.length expected)

/-! Specification-side definitions, phrased from the wording of the spec
rather than from the loops of the source, for comparison. -/

/-- Length of the maximal initial segment of a descending date list in which
each consecutive gap is at most `n` days: the in-progress (most recent)
segment of the interval regime. -/
def headSegLen (n : Int) : List Int → Nat
  | [] => 0
  | [_] => 1
  | a :: b :: l => if a - b ≤ n then headSegLen n (b :: l) + 1 else 1

/-- Length of the initial run of a date list in which each consecutive pair
differs by exactly 1 day. -/
def headRun1 : List Int → Nat
  | [] => 0
  | [_] => 1
  | a :: b :: l => if a - b = 1 then headRun1 (b :: l) + 1 else 1

/-- Length of the longest run, anywhere in the list, in which each
consecutive pair of dates differs by exactly 1 day: the maximum over all
suffixes of the initial-run length. -/
def maxRun : List Int → Nat
  | [] => 0
  | a :: l => max (headRun1 (a :: l)) (maxRun l)

/-! Structure of the unique-date list. -/

theorem mem_dedupKeepFirst {a : Int} :
    ∀ {l seen : List Int}, a ∈ dedupKeepFirst seen l ↔ a ∈ l ∧ a ∉ seen := by
  intro l
  induction l with
  | nil => intro seen; simp [dedupKeepFirst]
  | cons x xs ih =>
    intro seen
    by_cases hx : x ∈ seen
    · rw [dedupKeepFirst, if_pos hx, ih]
      constructor
      · rintro ⟨h1, h2⟩
        exact ⟨List.mem_cons_of_mem _ h1, h2⟩
      · rintro ⟨h1, h2⟩
        rcases List.mem_cons.mp h1 with rfl | h1
        · exact absurd hx h2
        · exact ⟨h1, h2⟩
    · rw [dedupKeepFirst, if_neg hx, List.mem_cons, ih]
      constructor
      · rintro (rfl | ⟨h1, h2⟩)
        · exact ⟨List.mem_cons_self _ _, hx⟩
        · exact ⟨List.mem_cons_of_mem _ h1,
            fun hs => h2 (List.mem_cons_of_mem _ hs)⟩
      · rintro ⟨h1, h2⟩
        by_cases hax : a = x
        · exact Or.inl hax
        · rcases List.mem_cons.mp h1 with rfl | h1
          · exact absurd rfl hax
          · refine Or.inr ⟨h1, fun hs => ?_⟩
            rcases List.mem_cons.mp hs with h | h
            · exact hax h
            · exact h2 h

theorem mem_uniqueDates {a : Int} {l : List Int} :
    a ∈ uniqueDates l ↔ a ∈ l := by
  rw [uniqueDates, mem_dedupKeepFirst]
  simp [sortedDatesDesc, (List.perm_insertionSort (· ≤ ·) l).mem_iff]

theorem sorted_ge_sortedDatesDesc (l : List Int) :
    (sortedDatesDesc l).Sorted (· ≥ ·) := by
  have h := List.sorted_insertionSort (· ≤ ·) l
  rw [sortedDatesDesc, List.Sorted, List.pairwise_reverse]
  exact h

theorem sorted_gt_dedupKeepFirst :
    ∀ {l seen : List Int}, l.Sorted (· ≥ ·) →
      (dedupKeepFirst seen l).Sorted (· > ·) := by
  intro l
  induction l with
  | nil => intro seen _; rw [dedupKeepFirst]; exact List.sorted_nil
  | cons x xs ih =>
    intro seen hs
    rw [List.sorted_cons] at hs
    obtain ⟨hx, hxs⟩ := hs
    by_cases hmem : x ∈ seen
    · rw [dedupKeepFirst, if_pos hmem]
      exact ih hxs
    · rw [dedupKeepFirst, if_neg hmem, List.sorted_cons]
      refine ⟨fun b hb => ?_, ih hxs⟩
      have hb2 := mem_dedupKeepFirst.mp hb
      have hble : b ≤ x := hx b hb2.1
      have hbne : b ≠ x := fun h => hb2.2 (h ▸ List.mem_cons_self x seen)
      exact lt_of_le_of_ne hble hbne

theorem sorted_gt_uniqueDates (l : List Int) :
    (uniqueDates l).Sorted (· > ·) :=
  sorted_gt_dedupKeepFirst (sorted_ge_sortedDatesDesc l)

instance : IsAntisymm Int (· > ·) :=
  ⟨fun _ _ h1 h2 => absurd h2 (lt_asymm h1)⟩

theorem uniqueDates_eq_of_mem_iff {l₁ l₂ : List Int}
    (h : ∀ x, x ∈ l₁ ↔ x ∈ l₂) : uniqueDates l₁ = uniqueDates l₂ := by
  have hs₁ := sorted_gt_uniqueDates l₁
  have hs₂ := sorted_gt_uniqueDates l₂
  have hn₁ : (uniqueDates l₁).Nodup := hs₁.imp fun hab => ne_of_gt hab
  have hn₂ : (uniqueDates l₂).Nodup := hs₂.imp fun hab => ne_of_gt hab
  have hp : List.Perm (uniqueDates l₁) (uniqueDates l₂) :=
    (List.perm_ext_iff_of_nodup hn₁ hn₂).mpr fun a => by
      rw [mem_uniqueDates, mem_uniqueDates]; exact h a
  exact List.eq_of_perm_of_sorted hp hs₁ hs₂

theorem uniqueDates_eq_nil_iff {l : List Int} : uniqueDates l = [] ↔ l = [] := by
  constructor
  · intro h
    by_contra hne
    obtain ⟨x, hx⟩ := List.exists_mem_of_ne_nil l hne
    have hm := mem_uniqueDates.mpr hx
    rw [h] at hm
    exact absurd hm (List.not_mem_nil x)
  · intro h; subst h; rfl

/-! Behaviour of the backward walk and of the pair scan. -/

theorem walkLoop_acc :
    ∀ (l : List Int) (check : Int) (acc : Nat),
      walkLoop l check acc = acc + walkLoop l check 0 := by
  intro l
  induction l with
  | nil => intro check acc; simp [walkLoop]
  | cons d ds ih =>
    intro check acc
    by_cases h1 : d = check
    · rw [walkLoop, if_pos h1, walkLoop, if_pos h1, ih _ (acc + 1), ih _ (0 + 1)]
      omega
    · by_cases h2 : d < check
      · rw [walkLoop, if_neg h1, if_pos h2, walkLoop, if_neg h1, if_pos h2]
        omega
      · rw [walkLoop, if_neg h1, if_neg h2, walkLoop, if_neg h1, if_neg h2,
          ih _ acc]

theorem walk_spec :
    ∀ (l : List Int) (check : Int), l.Sorted (· > ·) → (∀ x ∈ l, x ≤ check) →
      (∀ k : Nat, k < walkLoop l check 0 → check - (k : Int) ∈ l) ∧
        check - (walkLoop l check 0 : Int) ∉ l := by
  intro l
  induction l with
  | nil =>
    intro check _ _
    exact ⟨fun k hk => absurd hk (by simp [walkLoop]), by simp [walkLoop]⟩
  | cons d ds ih =>
    intro check hsort hle
    rw [List.sorted_cons] at hsort
    obtain ⟨hdds, hsds⟩ := hsort
    by_cases h1 : d = check
    · subst h1
      have hlt : ∀ x ∈ ds, x ≤ d - 1 := fun x hx => by
        have := hdds x hx; omega
      obtain ⟨hmem, hnot⟩ := ih (d - 1) hsds hlt
      have hw : walkLoop (d :: ds) d 0 = 1 + walkLoop ds (d - 1) 0 := by
        rw [walkLoop, if_pos rfl, walkLoop_acc]
      rw [hw]
      constructor
      · intro k hk
        match k with
        | 0 => simp
        | j + 1 =>
          have hj : j < walkLoop ds (d - 1) 0 := by omega
          have hmj := hmem j hj
          have harith : d - ((j + 1 : Nat) : Int) = d - 1 - (j : Int) := by
            push_cast; ring
          rw [harith]
          exact List.mem_cons_of_mem _ hmj
      · intro hm
        rcases List.mem_cons.mp hm with h | h
        · have : (1 + walkLoop ds (d - 1) 0 : Int) = 0 := by omega
          have hpos : (0 : Int) < (1 + walkLoop ds (d - 1) 0 : Nat) := by
            push_cast; omega
          omega
        · have harith : d - ((1 + walkLoop ds (d - 1) 0 : Nat) : Int) =
              d - 1 - (walkLoop ds (d - 1) 0 : Int) := by push_cast; ring
          rw [harith] at h
          exact hnot h
    · have hdc : d < check :=
        lt_of_le_of_ne (hle d (List.mem_cons_self d ds)) h1
      have hw : walkLoop (d :: ds) check 0 = 0 := by
        rw [walkLoop, if_neg h1, if_pos hdc]
      rw [hw]
      constructor
      · intro k hk; omega
      · intro hm
        rcases List.mem_cons.mp hm with h | h
        · omega
        · have := hdds _ h
          omega

theorem seg_bound_ge :
    ∀ (ds : List Int) (prev : Int) (temp l : Nat),
      l ≤ max (segLoop prev ds temp l).2 (segLoop prev ds temp l).1 := by
  intro ds
  induction ds with
  | nil => intro prev temp l; simp [segLoop]
  | cons d ds ih =>
    intro prev temp l
    by_cases h : prev - d = 1
    · rw [segLoop, if_pos h]
      exact ih d (temp + 1) l
    · rw [segLoop, if_neg h]
      exact le_trans (le_max_left l temp) (ih d 1 (max l temp))

theorem walk_le_seg :
    ∀ (ds : List Int) (prev : Int) (temp l : Nat),
      (prev :: ds).Sorted (· > ·) →
      temp + walkLoop ds (prev - 1) 0 ≤
        max (segLoop prev ds temp l).2 (segLoop prev ds temp l).1 := by
  intro ds
  induction ds with
  | nil => intro prev temp l _; simp [walkLoop, segLoop]
  | cons d ds ih =>
    intro prev temp l hsort
    rw [List.sorted_cons] at hsort
    obtain ⟨hps, hsort2⟩ := hsort
    have hdp : d < prev := hps d (List.mem_cons_self d ds)
    by_cases h : prev - d = 1
    · have hd : d = prev - 1 := by omega
      rw [segLoop, if_pos h]
      have hw : walkLoop (d :: ds) (prev - 1) 0 = 1 + walkLoop ds (d - 1) 0 := by
        rw [walkLoop, if_pos hd, walkLoop_acc]
        rw [show prev - 1 - 1 = d - 1 by omega]
      rw [hw]
      have := ih d (temp + 1) l hsort2
      omega
    · have hlt : d < prev - 1 := by omega
      have hw : walkLoop (d :: ds) (prev - 1) 0 = 0 := by
        rw [walkLoop, if_neg (by omega : ¬d = prev - 1), if_pos hlt]
      rw [segLoop, if_neg h, hw]
      have h1 := seg_bound_ge ds d 1 (max l temp)
      have h2 : temp ≤ max l temp := le_max_right l temp
      omega

/-- Absorption of a dominated operand inside nested maxima. -/
theorem max_absorb_mid {a b m : Nat} (h : b ≤ a) :
    max a (max b m) = max a m := by
  rw [← max_assoc, max_eq_left h]

theorem seg_maxRun :
    ∀ (ds : List Int) (prev : Int) (temp l : Nat), 1 ≤ temp →
      max (segLoop prev ds temp l).2 (segLoop prev ds temp l).1 =
        max l (max ((temp - 1) + headRun1 (prev :: ds)) (maxRun ds)) := by
  intro ds
  induction ds with
  | nil =>
    intro prev temp l ht
    simp only [segLoop, headRun1, maxRun, Nat.max_zero]
    rw [show temp - 1 + 1 = temp by omega]
  | cons d ds ih =>
    intro prev temp l ht
    by_cases h : prev - d = 1
    · rw [segLoop, if_pos h, ih d (temp + 1) l (by omega)]
      rw [headRun1, if_pos h, maxRun]
      rw [show temp + 1 - 1 = temp by omega,
        show temp - 1 + (headRun1 (d :: ds) + 1) = temp + headRun1 (d :: ds) by
          omega]
      rw [max_absorb_mid (Nat.le_add_left _ _)]
    · rw [segLoop, if_neg h, ih d 1 (max l temp) le_rfl]
      rw [headRun1, if_neg h, maxRun]
      rw [show (1 : Nat) - 1 + headRun1 (d :: ds) = headRun1 (d :: ds) by omega,
        show temp - 1 + 1 = temp by omega]
      rw [max_assoc]

/-! Unfolding and dispatch lemmas for the two streak regimes. -/

theorem calcDatedStreak_longest (d0 : Int) (rest : List Int) (today : Int) :
    (calcDatedStreak (d0 :: rest) today).longest =
      max (segLoop d0 rest 1 0).2 (segLoop d0 rest 1 0).1 := rfl

theorem calcDatedStreak_current (d0 : Int) (rest : List Int) (today : Int) :
    (calcDatedStreak (d0 :: rest) today).current =
      if d0 = today ∨ d0 = today - 1 then
        walkLoop (d0 :: rest) (if d0 = today then today else today - 1) 0
      else 0 := rfl

theorem calculateIntervalStreak_cons (d0 : Int) (rest : List Int)
    (n today : Int) :
    calculateIntervalStreak (d0 :: rest) n today =
      ⟨if today - d0 ≤ n then (intervalLoop n d0 rest 1 0).1 else 0,
        max (intervalLoop n d0 rest 1 0).2 (intervalLoop n d0 rest 1 0).1⟩ := rfl

theorem calculateStreak_dated (completions : List Int) (frequency : Frequency)
    (customDays : List Int) (intervalDays : Option Int) (today : Int)
    (hne : completions ≠ [])
    (hf : frequency = Frequency.DAILY ∨ frequency = Frequency.WEEKLY ∨
      frequency = Frequency.CUSTOM) :
    calculateStreak completions frequency customDays intervalDays today =
      calcDatedStreak (uniqueDates completions) today := by
  rcases hf with rfl | rfl | rfl <;>
    · rw [calculateStreak, if_neg hne]

theorem calculateStreak_interval_none (completions : List Int)
    (customDays : List Int) (today : Int) (hne : completions ≠ []) :
    calculateStreak completions Frequency.INTERVAL customDays none today =
      calcDatedStreak (uniqueDates completions) today := by
  rw [calculateStreak, if_neg hne]

theorem calculateStreak_interval_zero (completions : List Int)
    (customDays : List Int) (today : Int) (hne : completions ≠ []) :
    calculateStreak completions Frequency.INTERVAL customDays (some 0) today =
      calcDatedStreak (uniqueDates completions) today := by
  rw [calculateStreak, if_neg hne]
  exact if_pos rfl

theorem calculateStreak_interval (completions : List Int)
    (customDays : List Int) (n : Int) (today : Int)
    (hne : completions ≠ []) (hn : n ≠ 0) :
    calculateStreak completions Frequency.INTERVAL customDays (some n) today =
      calculateIntervalStreak (uniqueDates completions) n today := by
  rw [calculateStreak, if_neg hne]
  exact if_neg hn

/-! The two regimes keep the current streak below the longest streak. -/

theorem interval_current_le (uniq : List Int) (n today : Int) :
    (calculateIntervalStreak uniq n today).current ≤
      (calculateIntervalStreak uniq n today).longest := by
  match uniq with
  | [] => simp [calculateIntervalStreak]
  | d0 :: rest =>
    rw [calculateIntervalStreak_cons]
    by_cases h : today - d0 ≤ n
    · rw [if_pos h]
      exact le_max_right _ _
    · rw [if_neg h]
      exact Nat.zero_le _

theorem dated_current_le (uniq : List Int) (today : Int)
    (hs : uniq.Sorted (· > ·)) :
    (calcDatedStreak uniq today).current ≤
      (calcDatedStreak uniq today).longest := by
  match uniq with
  | [] => simp [calcDatedStreak]
  | d0 :: rest =>
    rw [calcDatedStreak_current, calcDatedStreak_longest]
    by_cases h : d0 = today ∨ d0 = today - 1
    · rw [if_pos h]
      have hstart : (if d0 = today then today else today - 1) = d0 := by
        by_cases ht : d0 = today
        · rw [if_pos ht, ht]
        · rw [if_neg ht, (h.resolve_left ht)]
      rw [hstart]
      have hw : walkLoop (d0 :: rest) d0 0 = 1 + walkLoop rest (d0 - 1) 0 := by
        rw [walkLoop, if_pos rfl, walkLoop_acc]
      rw [hw]
      have := walk_le_seg rest d0 1 0 hs
      omega
    · rw [if_neg h]
      exact Nat.zero_le _

/-! Bounds on the completion rate. -/

theorem calculateCompletionRate_eq (completions : List Int) (createdAt : Int)
    (frequency : Frequency) (customDays : List Int)
    (targetPerWeek : Option Int) (intervalDays : Option Int) (now : Int) :
    calculateCompletionRate completions createdAt frequency customDays
        targetPerWeek intervalDays now =
      if daysSinceCreation now createdAt ≤ 0 then 0
      else if expectedCompletions frequency customDays targetPerWeek
          intervalDays createdAt (daysSinceCreation now createdAt) = 0 then 0
      else
        min 100 (roundPct completions.length
          (expectedCompletions frequency customDays targetPerWeek intervalDays
            createdAt (daysSinceCreation now createdAt))) := rfl

theorem rate_le_100 (completions : List Int) (createdAt : Int)
    (frequency : Frequency) (customDays : List Int)
    (targetPerWeek : Option Int) (intervalDays : Option Int) (now : Int) :
    calculateCompletionRate completions createdAt frequency customDays
        targetPerWeek intervalDays now ≤ 100 := by
  rw [calculateCompletionRate_eq]
  split
  · norm_num
  · split
    · norm_num
    · exact min_le_left _ _

theorem expectedCompletions_nonneg (frequency : Frequency)
    (customDays : List Int) (targetPerWeek : Option Int)
    (intervalDays : Option Int) (createdAt d : Int) (hd : 0 < d)
    (htp : ∀ t ∈ targetPerWeek, 1 ≤ t) (hiv : ∀ n ∈ intervalDays, 2 ≤ n) :
    0 ≤ expectedCompletions frequency customDays targetPerWeek intervalDays
        createdAt d := by
  cases frequency with
  | DAILY => exact hd.le
  | WEEKLY =>
    simp only [expectedCompletions]
    apply mul_nonneg
    · exact Int.fdiv_nonneg (by omega) (by norm_num)
    · cases targetPerWeek with
      | none => norm_num
      | some t =>
        show (0 : Int) ≤ if t = 0 then 1 else t
        by_cases ht : t = 0
        · rw [if_pos ht]; norm_num
        · rw [if_neg ht]
          have := htp t (by simp [Option.mem_def])
          omega
  | CUSTOM =>
    simp only [expectedCompletions]
    split
    · exact le_refl 0
    · exact Int.natCast_nonneg _
  | INTERVAL =>
    cases intervalDays with
    | none => exact le_refl 0
    | some n =>
      have hn := hiv n (by simp [Option.mem_def])
      simp only [expectedCompletions]
      rw [if_neg (by omega : ¬n = 0)]
      have := Int.fdiv_nonneg hd.le (by omega : (0 : Int) ≤ n)
      omega

theorem roundPct_nonneg (num den : Int) (hnum : 0 ≤ num) (hden : 0 < den) :
    0 ≤ roundPct num den :=
  Int.fdiv_nonneg (by omega) (by omega)

theorem rate_nonneg (completions : List Int) (createdAt : Int)
    (frequency : Frequency) (customDays : List Int)
    (targetPerWeek : Option Int) (intervalDays : Option Int) (now : Int)
    (htp : ∀ t ∈ targetPerWeek, 1 ≤ t) (hiv : ∀ n ∈ intervalDays, 2 ≤ n) :
    0 ≤ calculateCompletionRate completions createdAt frequency customDays
        targetPerWeek intervalDays now := by
  rw [calculateCompletionRate_eq]
  split
  · exact le_refl 0
  · split
    · exact le_refl 0
    · rename_i hd he
      have hd2 : 0 < daysSinceCreation now createdAt := by omega
      have hge := expectedCompletions_nonneg frequency customDays targetPerWeek
        intervalDays createdAt (daysSinceCreation now createdAt) hd2 htp hiv
      have hgt : 0 < expectedCompletions frequency customDays targetPerWeek
          intervalDays createdAt (daysSinceCreation now createdAt) := by omega
      exact le_min (by norm_num)
        (roundPct_nonneg _ _ (Int.natCast_nonneg _) hgt)

/-! Claim theorems. -/

/-- C4: for every rule kind (Daily, Weekly, CustomDays, Interval) and every
completion list, the streak result of `calculateStreak` satisfies
`longest ≥ current`; both components are of type `Nat`, hence
non-negative. -/
theorem claim_streak_longest_ge_current (completions : List Int)
    (frequency : Frequency) (customDays : List Int) (intervalDays : Option Int)
    (today : Int) :
    (calculateStreak completions frequency customDays intervalDays
        today).current ≤
      (calculateStreak completions frequency customDays intervalDays
        today).longest := by
  by_cases hne : completions = []
  · subst hne
    simp [calculateStreak]
  · cases frequency with
    | DAILY =>
      rw [calculateStreak_dated _ _ customDays intervalDays _ hne (Or.inl rfl)]
      exact dated_current_le _ _ (sorted_gt_uniqueDates _)
    | WEEKLY =>
      rw [calculateStreak_dated _ _ customDays intervalDays _ hne
        (Or.inr (Or.inl rfl))]
      exact dated_current_le _ _ (sorted_gt_uniqueDates _)
    | CUSTOM =>
      rw [calculateStreak_dated _ _ customDays intervalDays _ hne
        (Or.inr (Or.inr rfl))]
      exact dated_current_le _ _ (sorted_gt_uniqueDates _)
    | INTERVAL =>
      cases intervalDays with
      | none =>
        rw [calculateStreak_interval_none _ customDays _ hne]
        exact dated_current_le _ _ (sorted_gt_uniqueDates _)
      | some n =>
        by_cases hn : n = 0
        · subst hn
          rw [calculateStreak_interval_zero _ customDays _ hne]
          exact dated_current_le _ _ (sorted_gt_uniqueDates _)
        · rw [calculateStreak_interval _ customDays _ _ hne hn]
          exact interval_current_le _ _ _

/-- C1 (code-bug evidence): under an Interval rule with N = 3 and an active
streak (the newest completion is today, day 100), the source returns
`current = 3`, the length of the chronologically earliest segment
`[90, 89, 88]`, whereas the in-progress (most recent) segment of the
descending unique-date sequence is `[100]` of length 1, as `headSegLen`
computes.  The `current = length of the in-progress segment` part of the
claim therefore fails on the code at this input. -/
theorem claim_interval_current_is_oldest_segment :
    calculateStreak [100, 90, 89, 88] Frequency.INTERVAL [] (some 3) 100 =
        ⟨3, 3⟩ ∧
      uniqueDates [100, 90, 89, 88] = [100, 90, 89, 88] ∧
      headSegLen 3 [100, 90, 89, 88] = 1 ∧
      (100 : Int) - 100 ≤ 3 :=
  ⟨by decide, by decide, by decide, by decide⟩

/-- C10: a CUSTOM-frequency habit with an empty `customDays` set gets
completion rate 0 for every creation date, completion list and clock: the
expected count stays 0 and the guarded division is never reached. -/
theorem claim_custom_empty_rate_zero (completions : List Int)
    (createdAt : Int) (targetPerWeek intervalDays : Option Int) (now : Int) :
    calculateCompletionRate completions createdAt Frequency.CUSTOM []
        targetPerWeek intervalDays now = 0 := by
  rw [calculateCompletionRate_eq]
  split
  · rfl
  · simp [expectedCompletions]

/-- C5: Weekly rule with `targetPerWeek = 3`, habit whose
`daysSinceCreation` works out to 14 (a habit created 14 days before today,
counting the creation day), and 5 recorded completions: the expected count
is `ceil(14 / 7) * 3 = 6` and the rate is `round(100 * 5 / 6) = 83`. -/
theorem claim_weekly_example_rate (completions : List Int)
    (createdAt now : Int) (customDays : List Int) (intervalDays : Option Int)
    (hd : daysSinceCreation now createdAt = 14)
    (hlen : completions.length = 5) :
    expectedCompletions Frequency.WEEKLY customDays (some 3) intervalDays
        createdAt (daysSinceCreation now createdAt) = 6 ∧
      calculateCompletionRate completions createdAt Frequency.WEEKLY
        customDays (some 3) intervalDays now = 83 := by
  have he : expectedCompletions Frequency.WEEKLY customDays (some 3)
      intervalDays createdAt 14 = 6 := by rfl
  constructor
  · rw [hd]; exact he
  · rw [calculateCompletionRate_eq, hd, he, hlen]
    decide

/-- Witness for C5 at a concrete input: created at epoch, clock 13.0 days
later, five completions. -/
theorem claim_weekly_example_rate_witness :
    daysSinceCreation (13 * 86400000) 0 = 14 ∧
      calculateCompletionRate [0, 1, 2, 3, 4] 0 Frequency.WEEKLY []
        (some 3) none (13 * 86400000) = 83 :=
  ⟨by decide,
    (claim_weekly_example_rate [0, 1, 2, 3, 4] 0 (13 * 86400000) [] none
      (by decide) (by decide)).2⟩

/-- C6: for every valid rule (Weekly target at least 1, Interval length at
least 2, as the data model requires), the completion rate is an integer in
`[0, 100]`; it is 0 whenever `daysSinceCreation ≤ 0` or the expected count
is 0, and otherwise it is the half-up-rounded percentage clamped to 100. -/
theorem claim_rate_in_range (completions : List Int) (createdAt : Int)
    (frequency : Frequency) (customDays : List Int)
    (targetPerWeek intervalDays : Option Int) (now : Int)
    (htp : ∀ t ∈ targetPerWeek, 1 ≤ t) (hiv : ∀ n ∈ intervalDays, 2 ≤ n) :
    0 ≤ calculateCompletionRate completions createdAt frequency customDays
        targetPerWeek intervalDays now ∧
      calculateCompletionRate completions createdAt frequency customDays
        targetPerWeek intervalDays now ≤ 100 ∧
      (daysSinceCreation now createdAt ≤ 0 →
        calculateCompletionRate completions createdAt frequency customDays
          targetPerWeek intervalDays now = 0) ∧
      (expectedCompletions frequency customDays targetPerWeek intervalDays
          createdAt (daysSinceCreation now createdAt) = 0 →
        calculateCompletionRate completions createdAt frequency customDays
          targetPerWeek intervalDays now = 0) ∧
      (0 < daysSinceCreation now createdAt →
        expectedCompletions frequency customDays targetPerWeek intervalDays
            createdAt (daysSinceCreation now createdAt) ≠ 0 →
        calculateCompletionRate completions createdAt frequency customDays
            targetPerWeek intervalDays now =
          min 100 (roundPct completions.length
            (expectedCompletions frequency customDays targetPerWeek
              intervalDays createdAt (daysSinceCreation now createdAt)))) := by
  refine ⟨rate_nonneg _ _ _ _ _ _ _ htp hiv, rate_le_100 _ _ _ _ _ _ _,
    ?_, ?_, ?_⟩
  · intro h
    rw [calculateCompletionRate_eq, if_pos h]
  · intro h
    by_cases hd : daysSinceCreation now createdAt ≤ 0
    · rw [calculateCompletionRate_eq, if_pos hd]
    · rw [calculateCompletionRate_eq, if_neg hd, if_pos h]
  · intro h1 h2
    rw [calculateCompletionRate_eq, if_neg (by omega), if_neg h2]

/-- Witness for C6 at a concrete input: daily habit created at the epoch,
queried at the epoch, no completions; the rate is between 0 and 100. -/
theorem claim_rate_in_range_witness :
    0 ≤ calculateCompletionRate [] 0 Frequency.DAILY [] (some 3) (some 2) 0 ∧
      calculateCompletionRate [] 0 Frequency.DAILY [] (some 3) (some 2) 0 ≤
        100 :=
  ⟨(claim_rate_in_range [] 0 Frequency.DAILY [] (some 3) (some 2) 0
      (by intro t ht; simp [Option.mem_def] at ht; omega)
      (by intro n hn; simp [Option.mem_def] at hn; omega)).1,
    (claim_rate_in_range [] 0 Frequency.DAILY [] (some 3) (some 2) 0
      (by intro t ht; simp [Option.mem_def] at ht; omega)
      (by intro n hn; simp [Option.mem_def] at hn; omega)).2.1⟩

/-- C7: appending a second completion on a date already present leaves the
streak result unchanged, and the completion rate still never exceeds
100. -/
theorem claim_duplicate_date_invariant (completions : List Int) (d : Int)
    (frequency : Frequency) (customDays : List Int)
    (targetPerWeek intervalDays : Option Int) (createdAt today now : Int)
    (h : d ∈ completions) :
    calculateStreak (completions ++ [d]) frequency customDays intervalDays
        today =
      calculateStreak completions frequency customDays intervalDays today ∧
    calculateCompletionRate (completions ++ [d]) createdAt frequency
        customDays targetPerWeek intervalDays now ≤ 100 := by
  refine ⟨?_, rate_le_100 _ _ _ _ _ _ _⟩
  have hne : completions ≠ [] := List.ne_nil_of_mem h
  have hne2 : completions ++ [d] ≠ [] := by simp
  have hu : uniqueDates (completions ++ [d]) = uniqueDates completions :=
    uniqueDates_eq_of_mem_iff fun x => by
      rw [List.mem_append, List.mem_singleton]
      constructor
      · rintro (hx | rfl)
        · exact hx
        · exact h
      · exact fun hx => Or.inl hx
  rw [calculateStreak, calculateStreak, if_neg hne2, if_neg hne, hu]

/-- Witness for C7 at a concrete input: one completion on day 3,
duplicated. -/
theorem claim_duplicate_date_invariant_witness :
    (3 : Int) ∈ [(3 : Int)] ∧
      (calculateStreak ([(3 : Int)] ++ [3]) Frequency.DAILY [] none 3 =
          calculateStreak [(3 : Int)] Frequency.DAILY [] none 3 ∧
        calculateCompletionRate ([(3 : Int)] ++ [3]) 0 Frequency.DAILY []
          none none 0 ≤ 100) :=
  ⟨by decide,
    claim_duplicate_date_invariant [3] 3 Frequency.DAILY [] none none 0 3 0
      (by decide)⟩

/-- C8: under any two non-Interval rules (Daily, Weekly, CustomDays) and
any scheduling parameters, `calculateStreak` returns the same result: the
parameters have no influence on the streak output. -/
theorem claim_schedule_params_irrelevant (completions : List Int)
    (f1 f2 : Frequency) (cd1 cd2 : List Int) (iv1 iv2 : Option Int)
    (today : Int)
    (h1 : f1 = Frequency.DAILY ∨ f1 = Frequency.WEEKLY ∨
      f1 = Frequency.CUSTOM)
    (h2 : f2 = Frequency.DAILY ∨ f2 = Frequency.WEEKLY ∨
      f2 = Frequency.CUSTOM) :
    calculateStreak completions f1 cd1 iv1 today =
      calculateStreak completions f2 cd2 iv2 today := by
  by_cases hne : completions = []
  · subst hne
    rcases h1 with rfl | rfl | rfl <;> rcases h2 with rfl | rfl | rfl <;> rfl
  · rw [calculateStreak_dated _ _ _ _ _ hne h1,
      calculateStreak_dated _ _ _ _ _ hne h2]

/-- Witness for C8 at a concrete input: Daily versus Weekly with differing
parameters. -/
theorem claim_schedule_params_irrelevant_witness :
    calculateStreak [(1 : Int)] Frequency.DAILY [] none 5 =
      calculateStreak [(1 : Int)] Frequency.WEEKLY [2, 3] (some 7) 5 :=
  claim_schedule_params_irrelevant [1] Frequency.DAILY Frequency.WEEKLY []
    [2, 3] none (some 7) 5 (Or.inl rfl) (Or.inr (Or.inl rfl))

/-- C9: `calculateStreak` is invariant under permutation of the completion
list: the result depends only on the set of completion dates. -/
theorem claim_streak_perm_invariant (l1 l2 : List Int)
    (frequency : Frequency) (customDays : List Int)
    (intervalDays : Option Int) (today : Int) (h : List.Perm l1 l2) :
    calculateStreak l1 frequency customDays intervalDays today =
      calculateStreak l2 frequency customDays intervalDays today := by
  by_cases hne : l1 = []
  · subst hne
    have h2 : l2 = [] := List.Perm.eq_nil h.symm
    subst h2
    rfl
  · have hne2 : l2 ≠ [] := fun hnil => hne (List.Perm.eq_nil (hnil ▸ h))
    have hu := uniqueDates_eq_of_mem_iff fun x => h.mem_iff
    rw [calculateStreak, calculateStreak, if_neg hne, if_neg hne2, hu]

/-- Witness for C9 at a concrete input: the two-element list reversed. -/
theorem claim_streak_perm_invariant_witness :
    calculateStreak [(1 : Int), 2] Frequency.DAILY [] none 2 =
      calculateStreak [(2 : Int), 1] Frequency.DAILY [] none 2 :=
  claim_streak_perm_invariant [1, 2] [2, 1] Frequency.DAILY [] none 2
    (by decide)

/-- C2: under a Daily, Weekly or CustomDays rule, with `d0` the most recent
unique completion date, the current streak is 0 unless `d0` is today or
yesterday; when it is, the current streak counts consecutive calendar days
walking backward from today (when a completion exists today) or from
yesterday (otherwise): every day down to the count is in the completion
set, and the next day below is not. -/
theorem claim_dated_current_spec (completions : List Int)
    (frequency : Frequency) (customDays : List Int)
    (intervalDays : Option Int) (today : Int) (d0 : Int) (rest : List Int)
    (hf : frequency = Frequency.DAILY ∨ frequency = Frequency.WEEKLY ∨
      frequency = Frequency.CUSTOM)
    (hu : uniqueDates completions = d0 :: rest) :
    (¬(d0 = today ∨ d0 = today - 1) →
      (calculateStreak completions frequency customDays intervalDays
        today).current = 0) ∧
    ((d0 = today ∨ d0 = today - 1) →
      (∀ k : Nat,
          k < (calculateStreak completions frequency customDays intervalDays
            today).current →
          (if today ∈ completions then today else today - 1) - (k : Int) ∈
            completions) ∧
        (if today ∈ completions then today else today - 1) -
            ((calculateStreak completions frequency customDays intervalDays
              today).current : Int) ∉ completions) := by
  have hne : completions ≠ [] := by
    intro hnil
    rw [uniqueDates_eq_nil_iff.mpr hnil] at hu
    exact absurd hu (by simp)
  rw [calculateStreak_dated _ _ _ _ _ hne hf, hu]
  have hsorted : (d0 :: rest).Sorted (· > ·) :=
    hu ▸ sorted_gt_uniqueDates completions
  have hrest : ∀ x ∈ rest, d0 > x := (List.sorted_cons.mp hsorted).1
  have hmemiff : ∀ x : Int, x ∈ d0 :: rest ↔ x ∈ completions := fun x => by
    rw [← hu, mem_uniqueDates]
  constructor
  · intro h
    rw [calcDatedStreak_current, if_neg h]
  · intro h
    have hd0mem : d0 ∈ completions := (hmemiff d0).mp (List.mem_cons_self _ _)
    have hiff : d0 = today ↔ today ∈ completions := by
      constructor
      · intro ht
        exact ht ▸ hd0mem
      · intro hm
        rcases List.mem_cons.mp ((hmemiff today).mpr hm) with heq | hin
        · exact heq.symm
        · have h1 := hrest today hin
          rcases h with h2 | h2 <;> omega
    have hstart1 : (if d0 = today then today else today - 1) = d0 := by
      by_cases ht : d0 = today
      · rw [if_pos ht]; exact ht.symm
      · rw [if_neg ht]; exact (h.resolve_left ht).symm
    have hstart2 : (if today ∈ completions then today else today - 1) = d0 := by
      by_cases hm : today ∈ completions
      · rw [if_pos hm]; exact (hiff.mpr hm).symm
      · rw [if_neg hm]
        have ht : ¬d0 = today := fun hh => hm (hiff.mp hh)
        exact (h.resolve_left ht).symm
    rw [calcDatedStreak_current, if_pos h, hstart1, hstart2]
    have hle : ∀ x ∈ d0 :: rest, x ≤ d0 := by
      intro x hx
      rcases List.mem_cons.mp hx with rfl | hx
      · exact le_refl x
      · exact (hrest x hx).le
    obtain ⟨hmem, hnot⟩ := walk_spec (d0 :: rest) d0 hsorted hle
    constructor
    · intro k hk
      exact (hmemiff _).mp (hmem k hk)
    · intro hmm
      exact hnot ((hmemiff _).mpr hmm)

/-- Witness for C2 at a concrete input: a single completion today. -/
theorem claim_dated_current_spec_witness :
    uniqueDates [(10 : Int)] = [10] ∧
      ((¬((10 : Int) = 10 ∨ (10 : Int) = 10 - 1) →
          (calculateStreak [(10 : Int)] Frequency.DAILY [] none 10).current =
            0) ∧
        (((10 : Int) = 10 ∨ (10 : Int) = 10 - 1) →
          (∀ k : Nat,
              k < (calculateStreak [(10 : Int)] Frequency.DAILY [] none
                10).current →
              (if (10 : Int) ∈ [(10 : Int)] then (10 : Int) else 10 - 1) -
                  (k : Int) ∈ [(10 : Int)]) ∧
            (if (10 : Int) ∈ [(10 : Int)] then (10 : Int) else 10 - 1) -
                ((calculateStreak [(10 : Int)] Frequency.DAILY [] none
                  10).current : Int) ∉ [(10 : Int)])) :=
  ⟨by decide,
    claim_dated_current_spec [10] Frequency.DAILY [] none 10 10 []
      (Or.inl rfl) (by decide)⟩

/-- C3: under a Daily, Weekly or CustomDays rule, the longest streak equals
the length of the longest run of the strictly-descending unique-date
sequence in which consecutive dates differ by exactly 1 day; a single
completion yields a streak of length 1. -/
theorem claim_dated_longest_spec (completions : List Int)
    (frequency : Frequency) (customDays : List Int)
    (intervalDays : Option Int) (today : Int) (hne : completions ≠ [])
    (hf : frequency = Frequency.DAILY ∨ frequency = Frequency.WEEKLY ∨
      frequency = Frequency.CUSTOM) :
    (uniqueDates completions).Sorted (· > ·) ∧
      (calculateStreak completions frequency customDays intervalDays
          today).longest =
        maxRun (uniqueDates completions) ∧
      (∀ c : Int, completions = [c] →
        (calculateStreak completions frequency customDays intervalDays
          today).longest = 1) := by
  have hmain : (calculateStreak completions frequency customDays intervalDays
      today).longest = maxRun (uniqueDates completions) := by
    rw [calculateStreak_dated _ _ _ _ _ hne hf]
    obtain ⟨d0, rest, hu⟩ : ∃ d0 rest, uniqueDates completions = d0 :: rest := by
      cases huq : uniqueDates completions with
      | nil => exact absurd (uniqueDates_eq_nil_iff.mp huq) hne
      | cons a l => exact ⟨a, l, rfl⟩
    rw [hu, calcDatedStreak_longest, seg_maxRun rest d0 1 0 le_rfl]
    simp [maxRun]
  refine ⟨sorted_gt_uniqueDates _, hmain, ?_⟩
  intro c hc
  rw [hmain]
  subst hc
  simp [uniqueDates, sortedDatesDesc, dedupKeepFirst, maxRun, headRun1,
    List.insertionSort, List.orderedInsert]

/-- Witness for C3 at a concrete input: completions on days 5 and 4. -/
theorem claim_dated_longest_spec_witness :
    (uniqueDates [(5 : Int), 4]).Sorted (· > ·) ∧
      (calculateStreak [(5 : Int), 4] Frequency.DAILY [] none 5).longest =
        maxRun (uniqueDates [(5 : Int), 4]) ∧
      (∀ c : Int, [(5 : Int), 4] = [c] →
        (calculateStreak [(5 : Int), 4] Frequency.DAILY [] none 5).longest =
          1) :=
  claim_dated_longest_spec [5, 4] Frequency.DAILY [] none 5 (by decide)
    (Or.inl rfl)

end HabitTracker
